import Mathlib

/- Verification of the URL-processor batch pipeline (url_processor.py).

The Python source is shallowly embedded.  Strings are Lean `String`s
(in this toolchain a `String` is a packed `List Char`), and the Python
`str` operations the source uses (`strip`, `lower`, `split`,
`replace`, slicing) are modelled by the executable functions below.
The `re` searches of `process_with_gemini` are modelled by specialised
scanners implementing exactly the regular expressions appearing in the
source.  The stateful run loop of `URLProcessor.run` is modelled by
explicit state passing over a file-system state, with the outside
world (network fetch, Gemini call, `urlparse`, `datetime.now`)
supplied as parameters. -/

namespace UrlProc

/- ### Python string primitives -/

/- Python whitespace for `str.strip()` and the regex class `\s`
(ASCII range): space, tab, newline, carriage return, vertical tab,
form feed. -/
def isPyWs (c : Char) : Bool :=
  c = ' ' || c = '\t' || c = '\n' || c = '\r' || c = '\x0b' || c = '\x0c'

/- Drop characters satisfying `p` from both ends of a character list;
the core of Python `str.strip()` / `str.strip('/')`. -/
def stripCharsL (p : Char → Bool) (l : List Char) : List Char :=
  (((l.dropWhile p).reverse).dropWhile p).reverse

/- Python `s.strip()` (whitespace strip). -/
def pyStrip (s : String) : String := String.mk (stripCharsL isPyWs s.data)

/- Python `s.strip('/')` as used on URL paths. -/
def pyStripSlash (s : String) : String := String.mk (stripCharsL (fun c => c = '/') s.data)

/- Python `str.lower` on a character list (ASCII case fold, which is
what every use in the source needs). -/
def lowerL (l : List Char) : List Char := l.map Char.toLower

/- Python `s.lower()`. -/
def pyLower (s : String) : String := String.mk (lowerL s.data)

/- Python `s.split(sep)` for a single-character separator: empty
pieces are kept and an empty input yields one empty piece. -/
def splitOnChar (sep : Char) : List Char → List (List Char)
  | [] => [[]]
  | c :: rest =>
    if c = sep then [] :: splitOnChar sep rest
    else
      match splitOnChar sep rest with
      | [] => [[c]]
      | p :: ps => (c :: p) :: ps

/- Join pieces with a single comma; inverse of `splitOnChar ','` on
comma-free pieces (used to state the list-field parsing theorems). -/
def joinCommaL : List (List Char) → List Char
  | [] => []
  | [x] => x
  | x :: xs => x ++ ',' :: joinCommaL xs

/- Python `s.replace(pat, repl)`: left-to-right, non-overlapping
replacement of every occurrence.  `fuel` bounds the recursion; calling
with `fuel = l.length` is always enough because every step consumes at
least one character. -/
def replaceLAux (pat repl : List Char) : Nat → List Char → List Char
  | 0, l => l
  | _ + 1, [] => []
  | fuel + 1, c :: rest =>
    if pat.isPrefixOf (c :: rest) && !pat.isEmpty then
      repl ++ replaceLAux pat repl fuel ((c :: rest).drop pat.length)
    else
      c :: replaceLAux pat repl fuel rest

/- Python `s.replace(pat, repl)`. -/
def pyReplace (s pat repl : String) : String :=
  String.mk (replaceLAux pat.data repl.data s.data.length s.data)

/- Python slice `s[:n]`. -/
def takeChars (s : String) (n : Nat) : String := String.mk (s.data.take n)

/- Case-insensitive "pattern is a prefix of text" (both sides folded
with `Char.toLower`), the building block for the `re.IGNORECASE`
searches of the source. -/
def isPrefixCIL : List Char → List Char → Bool
  | [], _ => true
  | _ :: _, [] => false
  | p :: ps, c :: cs => Char.toLower p = Char.toLower c && isPrefixCIL ps cs

/- Case-insensitive substring test: Python `sub in s.lower()` for a
lowercase `sub`, and `re.search` of a literal pattern with
`re.IGNORECASE`. -/
def hasSubstrCIL (sub : List Char) : List Char → Bool
  | [] => sub.isEmpty
  | c :: rest => isPrefixCIL sub (c :: rest) || hasSubstrCIL sub rest

/- The error classifier of `process_url` / `run` (lines 312 and 345):
Python `"gemini" in str(e).lower()`. -/
def hasGeminiSubstr (msg : String) : Bool := hasSubstrCIL "gemini".data msg.data

/- ### Enrichment-reply parsing (`process_with_gemini`, lines 159-199) -/

/- Capture of `[^\]]*\]`: the characters before the first `]`, or
`none` when no `]` follows (the regex then fails at this position). -/
def takeUntilRB : List Char → Option (List Char)
  | [] => none
  | c :: rest => if c = ']' then some [] else (takeUntilRB rest).map (c :: ·)

/- After a field label, `\s*\[([^\]]*)\]`: skip whitespace, require an
opening bracket, capture up to the first closing bracket. -/
def bracketAfterLabel (l : List Char) : Option (List Char) :=
  match l.dropWhile isPyWs with
  | '[' :: rest => takeUntilRB rest
  | _ => none

/- After `Code_Examples:`, `\s*(yes|no)` with `re.IGNORECASE`. -/
def yesNoAfterLabel (l : List Char) : Option (List Char) :=
  let t := l.dropWhile isPyWs
  if isPrefixCIL "yes".data t then some (t.take 3)
  else if isPrefixCIL "no".data t then some (t.take 2)
  else none

/- After `Difficulty_Level:`, `\s*(beginner|intermediate|advanced)`
with `re.IGNORECASE`. -/
def difficultyAfterLabel (l : List Char) : Option (List Char) :=
  let t := l.dropWhile isPyWs
  if isPrefixCIL "beginner".data t then some (t.take 8)
  else if isPrefixCIL "intermediate".data t then some (t.take 12)
  else if isPrefixCIL "advanced".data t then some (t.take 8)
  else none

/- After `Summary:`, `\s*(.*?)(?=\n\n|$)` with `re.DOTALL`: the lazy
capture stops at the first blank line, at the end of the text, or just
before a single trailing newline (Python `$`). -/
def summaryTake : List Char → List Char
  | [] => []
  | ['\n'] => []
  | '\n' :: '\n' :: _ => []
  | c :: rest => c :: summaryTake rest

def summaryAfterLabel (l : List Char) : Option (List Char) :=
  some (summaryTake (l.dropWhile isPyWs))

/- `re.search` of `label` (case-insensitive) followed by a
field-specific tail: try every position left to right, as the regex
engine does, and at each occurrence of the label attempt the tail. -/
def searchFieldL (label : List Char) (after : List Char → Option (List Char)) :
    List Char → Option (List Char)
  | [] => none
  | c :: rest =>
    if isPrefixCIL label (c :: rest) then
      match after ((c :: rest).drop label.length) with
      | some v => some v
      | none => searchFieldL label after rest
    else searchFieldL label after rest

/- Lazy capture up to the first occurrence of `stop`
(`([\s\S]*?)` before a literal), `none` if `stop` never occurs. -/
def lazyUntilL (stop : List Char) : List Char → Option (List Char)
  | [] => none
  | c :: rest =>
    if stop.isPrefixOf (c :: rest) then some []
    else (lazyUntilL stop rest).map (c :: ·)

/- `re.search(r'## Metadata\n([\s\S]*?)\n\n## Content', text)`
(case-sensitive, leftmost match): find the marker, then capture
lazily up to the stop literal; if the stop never occurs after this
marker occurrence, the engine moves on. -/
def searchBlockL (marker stop : List Char) : List Char → Option (List Char)
  | [] => none
  | c :: rest =>
    if marker.isPrefixOf (c :: rest) then
      match lazyUntilL stop ((c :: rest).drop marker.length) with
      | some v => some v
      | none => searchBlockL marker stop rest
    else searchBlockL marker stop rest

/- `re.search(r'## Content\n([\s\S]*)', text)`: everything after the
first occurrence of the marker. -/
def searchTailL (marker : List Char) : List Char → Option (List Char)
  | [] => none
  | c :: rest =>
    if marker.isPrefixOf (c :: rest) then some ((c :: rest).drop marker.length)
    else searchTailL marker rest

def metadataMarker : List Char := "## Metadata\n".data
def metadataStop : List Char := "\n\n## Content".data
def contentMarker : List Char := "## Content\n".data

/- List-field branch of the extraction loop (lines 183-188):
`value = match.group(1).strip()`; if `value` is non-empty and not the
literal token "none" (case-insensitive), split on commas, strip each
item and keep the non-empty ones; otherwise record an empty list. -/
def parseListCaptureL (raw : List Char) : List (List Char) :=
  let value := stripCharsL isPyWs raw
  if value ≠ [] ∧ lowerL value ≠ "none".data then
    ((splitOnChar ',' value).map (stripCharsL isPyWs)).filter (fun i => i ≠ [])
  else []

def parseListCapture (raw : String) : List String :=
  (parseListCaptureL raw.data).map String.mk

/- The optional-field record built by `process_with_gemini`: a Python
dict in which a field is present exactly when its pattern matched. -/
structure ExtractedMeta where
  technologies : Option (List String) := none
  programming_languages : Option (List String) := none
  tags : Option (List String) := none
  key_concepts : Option (List String) := none
  code_examples : Option Bool := none
  difficulty_level : Option String := none
  summary : Option String := none
deriving Repr, DecidableEq

def ExtractedMeta.empty : ExtractedMeta := {}

/- The per-field extraction loop over the captured metadata block
(lines 170-192 of the source, one entry per regex in `patterns`). -/
def parseMetadataText (mt : List Char) : ExtractedMeta where
  technologies :=
    (searchFieldL "technologies:".data bracketAfterLabel mt).map
      (fun v => (parseListCaptureL v).map String.mk)
  programming_languages :=
    (searchFieldL "programming_languages:".data bracketAfterLabel mt).map
      (fun v => (parseListCaptureL v).map String.mk)
  tags :=
    (searchFieldL "tags:".data bracketAfterLabel mt).map
      (fun v => (parseListCaptureL v).map String.mk)
  key_concepts :=
    (searchFieldL "key_concepts:".data bracketAfterLabel mt).map
      (fun v => (parseListCaptureL v).map String.mk)
  code_examples :=
    (searchFieldL "code_examples:".data yesNoAfterLabel mt).map
      (fun v => lowerL (stripCharsL isPyWs v) = "yes".data)
  difficulty_level :=
    (searchFieldL "difficulty_level:".data difficultyAfterLabel mt).map
      (fun v => String.mk (stripCharsL isPyWs v))
  summary :=
    (searchFieldL "summary:".data summaryAfterLabel mt).map
      (fun v => String.mk (stripCharsL isPyWs v))

structure GeminiOut where
  metadata : ExtractedMeta
  content : String
deriving Repr, DecidableEq

/- The reply-parsing part of `process_with_gemini` (lines 159-199):
`result_text` is the Gemini reply, `content` the original converted
markdown used as fallback when the `## Content` block is absent. -/
def parseGeminiReply (result_text content : String) : GeminiOut where
  metadata :=
    match searchBlockL metadataMarker metadataStop result_text.data with
    | some mt => parseMetadataText mt
    | none => ExtractedMeta.empty
  content :=
    match searchTailL contentMarker result_text.data with
    | some rest => String.mk rest
    | none => content

/- ### Filename derivation (`create_markdown_file`, lines 205-219) -/

/- `urllib.parse.urlparse` output restricted to the components the
program reads; the standard-library parser itself is outside the
repository, so a URL enters the model already split. -/
structure ParsedUrl where
  netloc : String
  path : String
  query : String
deriving Repr, DecidableEq

/- The character class `[^\w\-_\.]` of the sanitising `re.sub`
(ASCII range of `\w`). -/
def isSafeFilenameChar (c : Char) : Bool :=
  c.isAlphanum || c = '_' || c = '-' || c = '.'

/- `re.sub(r'[^\w\-_\.]', '_', filename)`. -/
def sanitizeFilename (s : String) : String :=
  String.mk (s.data.map (fun c => if isSafeFilenameChar c then c else '_'))

/- The filename-derivation slice of `create_markdown_file`:
`domain = parsed.netloc.replace('www.', '')`,
`path = parsed.path.strip('/').replace('/', '_')`, then either
`f"{domain}_{path[:100]}.md"` or, when `path` is empty,
`f"{domain}_{timestamp}.md"`, and finally the sanitising `re.sub`.
`timestamp` stands for `datetime.now().strftime('%Y%m%d_%H%M%S')`. -/
def create_markdown_filename (u : ParsedUrl) (timestamp : String) : String :=
  let domain := pyReplace u.netloc "www." ""
  let path := pyReplace (pyStripSlash u.path) "/" "_"
  let filename :=
    if path ≠ "" then domain ++ "_" ++ takeChars path 100 ++ ".md"
    else domain ++ "_" ++ timestamp ++ ".md"
  sanitizeFilename filename

/- The filename as claim C3 words it: leading `www.` only, the raw
path's slashes replaced (no slash stripping), branching on the raw
path being empty. -/
def filenameClaimC3 (u : ParsedUrl) (timestamp : String) : String :=
  let domain :=
    if "www.".data.isPrefixOf u.netloc.data then String.mk (u.netloc.data.drop 4)
    else u.netloc
  if u.path ≠ "" then
    sanitizeFilename (domain ++ "_" ++ takeChars (pyReplace u.path "/" "_") 100 ++ ".md")
  else
    sanitizeFilename (domain ++ "_" ++ timestamp ++ ".md")

/- The filename as the amended claim C3 words it: every occurrence of
`www.` removed from the domain, the path stripped of leading and
trailing slashes before the slash-to-underscore replacement, and the
timestamp branch taken when the stripped path is empty. -/
def filenameAmendedC3 (u : ParsedUrl) (timestamp : String) : String :=
  let domain := pyReplace u.netloc "www." ""
  let strippedPath := pyReplace (pyStripSlash u.path) "/" "_"
  if strippedPath ≠ "" then
    sanitizeFilename (domain ++ "_" ++ takeChars strippedPath 100 ++ ".md")
  else
    sanitizeFilename (domain ++ "_" ++ timestamp ++ ".md")

/- ### Author extraction (`extract_metadata_from_html`, lines 82-93) -/

/- A parsed HTML element as BeautifulSoup presents it to the lookups
the source performs: tag name, attributes, the tokenised `class`
attribute, and the `get_text(strip=True)` text.  A document is its
elements in document order, which is what successive `soup.find`
calls search. -/
structure Tag where
  name : String
  attrs : List (String × String)
  classes : List String
  text : String
deriving Repr, DecidableEq

/- BeautifulSoup `tag.get(key)` / `tag.get(key, default)`. -/
def getAttr (t : Tag) (k : String) : Option String :=
  (t.attrs.find? (fun p => p.1 = k)).map (fun p => p.2)

def getAttrD (t : Tag) (k d : String) : String := (getAttr t k).getD d

/- `soup.find('meta', {k: v})`. -/
def isMetaWithAttr (k v : String) (t : Tag) : Bool :=
  t.name = "meta" && getAttr t k = some v

/- `soup.find(class_=re.compile('author', re.I))`: any element one of
whose class tokens contains "author" case-insensitively. -/
def hasAuthorCls (t : Tag) : Bool :=
  t.classes.any (fun c => hasSubstrCIL "author".data c.data)

/- `soup.find(attrs={'itemprop': 'author'})`. -/
def isItempropAuthor (t : Tag) : Bool := getAttr t "itemprop" = some "author"

/- The author part of `extract_metadata_from_html` (lines 82-93 plus
the `author or 'Unknown'` default of line 114).  Python's `x or y` on
the two `find` results is translated as a match on the first
successful find; a found element is always truthy. -/
def extract_author (doc : List Tag) : String :=
  let author :=
    match doc.find? (isMetaWithAttr "name" "author") with
    | some t => getAttrD t "content" ""
    | none =>
      match doc.find? (isMetaWithAttr "property" "article:author") with
      | some t => getAttrD t "content" ""
      | none => ""
  let author :=
    if author = "" then
      match doc.find? hasAuthorCls with
      | some t => t.text
      | none =>
        match doc.find? isItempropAuthor with
        | some t => t.text
        | none => author
    else author
  if author = "" then "Unknown" else author

/- The author as claim C8 words it: the value of the first match in
the priority order meta-name, meta-property, class, itemprop, with
"Unknown" only when none of the four matches. -/
def authorFirstMatch (doc : List Tag) : Option String :=
  match doc.find? (isMetaWithAttr "name" "author") with
  | some t => some (getAttrD t "content" "")
  | none =>
    match doc.find? (isMetaWithAttr "property" "article:author") with
    | some t => some (getAttrD t "content" "")
    | none =>
      match doc.find? hasAuthorCls with
      | some t => some t.text
      | none => (doc.find? isItempropAuthor).map Tag.text

def claimAuthorC8 (doc : List Tag) : String := (authorFirstMatch doc).getD "Unknown"

/- The author as the amended claim C8 words it: a meta match counts
only when its content is non-empty; the class match is preferred over
the itemprop match even when its text is empty, in which case (and in
every other empty outcome) the author is "Unknown". -/
def amendedAuthorC8 (doc : List Tag) : String :=
  let metaVal :=
    match doc.find? (isMetaWithAttr "name" "author") with
    | some t => getAttrD t "content" ""
    | none =>
      match doc.find? (isMetaWithAttr "property" "article:author") with
      | some t => getAttrD t "content" ""
      | none => ""
  if metaVal ≠ "" then metaVal
  else
    match doc.find? hasAuthorCls with
    | some t => if t.text ≠ "" then t.text else "Unknown"
    | none =>
      match doc.find? isItempropAuthor with
      | some t => if t.text ≠ "" then t.text else "Unknown"
      | none => "Unknown"

/- ### Fetching (`fetch_url_content`, lines 61-72) -/

/- What the network returns for one HTTP GET: a response with a
status and a body, or a raised exception (timeouts included — the GET
carries `timeout=30`, so every request terminates in one of these two
ways). -/
inductive NetEvent where
  | response (status : Nat) (body : String)
  | exn (msg : String)
deriving Repr, DecidableEq

/- The bounded wait passed to `session.get` (seconds). -/
def fetchTimeoutSeconds : Nat := 30

/- `fetch_url_content`: `net i` is what the network would return for
the i-th GET this call issues.  The result pairs the returned value
with the number of GETs issued.  `maxRetries` is `self.max_retries`,
in scope in the source but never consulted. -/
def fetch_url_content (maxRetries : Nat) (net : Nat → NetEvent) : Option String × Nat :=
  match net 0 with
  | .response status body => if status = 200 then (some body, 1) else (none, 1)
  | .exn _ => (none, 1)

/- ### Run loop, backlog and ledger (lines 252-351) -/

/- `read_urls_from_file` (lines 252-261) applied to the lines of the
backlog file: strip each line, keep the non-blank ones. -/
def readUrlLines (ls : List String) : List String :=
  (ls.map pyStrip).filter (fun s => s ≠ "")

/- `remove_processed_url` (lines 263-272): re-read the backlog file,
keep the entries different from `url`, write them back one per line.
The result is the lines of the rewritten file. -/
def removeProcessedUrl (ls : List String) (url : String) : List String :=
  (readUrlLines ls).filter (fun u => u ≠ url)

/- How the per-URL pipeline of `process_url` can end, as decided by
the world outside the mutable file state: the fetch returns no
content (line 286); some library call raises before any side effect
(e.g. the html2text conversion of line 294), with `str(e) = msg`; the
Gemini call raises (re-raised by `process_with_gemini`, line 203),
with `str(e) = msg`; or everything succeeds. -/
inductive UrlOutcome where
  | fetchFail
  | convertError (msg : String)
  | geminiError (msg : String)
  | success
deriving Repr, DecidableEq

/- The environment of a run: the outcome of processing each URL, and
the filename `create_markdown_file` derives for it (the composition
of `urlparse` and the filename derivation, with the timestamp fixed
by the wall clock). -/
structure Env where
  outcome : String → UrlOutcome
  filename : String → String

/- The file-system state the loop mutates: the backlog file (its
lines), the set of output documents present (as an ordered list of
distinct filenames), and the ledger (one record per append). -/
structure FsState where
  backlog : List String
  docs : List String
  ledger : List (String × String)
deriving Repr, DecidableEq

/- Writing an output document: a whole-file write that silently
overwrites, so the set of files gains the name at most once. -/
def writeDoc (docs : List String) (name : String) : List String :=
  if name ∈ docs then docs else docs ++ [name]

/- `process_url` (lines 279-315): on success the document is written,
the URL is removed from the backlog and a ledger record appended, and
`True` is returned; a fetch failure returns `False`; an exception is
re-raised exactly when `"gemini" in str(e).lower()`, and otherwise
`False` is returned. -/
def processUrl (env : Env) (url : String) (st : FsState) :
    Except String (Bool × FsState) :=
  match env.outcome url with
  | .fetchFail => .ok (false, st)
  | .convertError msg =>
    if hasGeminiSubstr msg then .error msg else .ok (false, st)
  | .geminiError msg =>
    if hasGeminiSubstr msg then .error msg else .ok (false, st)
  | .success =>
    let name := env.filename url
    .ok (true,
      { backlog := removeProcessedUrl st.backlog url
        docs := writeDoc st.docs name
        ledger := st.ledger ++ [(url, name)] })

/- The `for` loop of `run` (lines 327-349) over the in-memory URL
list: a propagated exception breaks the loop when its message
contains "gemini" and is otherwise swallowed (`continue`). -/
def runLoopAux (env : Env) : List String → FsState → FsState
  | [], st => st
  | url :: rest, st =>
    match processUrl env url st with
    | .ok (_, st2) => runLoopAux env rest st2
    | .error msg =>
      if hasGeminiSubstr msg then st else runLoopAux env rest st

/- `run` (lines 317-351): read the backlog once; if it is empty do
nothing, otherwise iterate the loop over the URLs read. -/
def run (env : Env) (st : FsState) : FsState :=
  let urls := readUrlLines st.backlog
  if urls = [] then st else runLoopAux env urls st

/- ### Helper lemmas -/

lemma map_eq_self_of {α : Type} {l : List α} {f : α → α} (h : ∀ a ∈ l, f a = a) :
    l.map f = l := by
  induction l with
  | nil => rfl
  | cons x rest ih => simp [h x (by simp), ih (fun a ha => h a (by simp [ha]))]

lemma filter_eq_self_of {α : Type} {l : List α} {p : α → Bool} (h : ∀ a ∈ l, p a = true) :
    l.filter p = l := by
  induction l with
  | nil => rfl
  | cons x rest ih =>
    simp [List.filter_cons, h x (by simp), ih (fun a ha => h a (by simp [ha]))]

lemma dropWhile_dropWhile (p : Char → Bool) (l : List Char) :
    (l.dropWhile p).dropWhile p = l.dropWhile p := by
  induction l with
  | nil => rfl
  | cons c rest ih =>
    by_cases h : p c
    · simp [List.dropWhile_cons, h, ih]
    · simp [List.dropWhile_cons, h]

lemma exists_append_dropWhile (p : Char → Bool) (l : List Char) :
    ∃ a, a ++ l.dropWhile p = l := by
  induction l with
  | nil => exact ⟨[], rfl⟩
  | cons c rest ih =>
    by_cases h : p c
    · obtain ⟨a, ha⟩ := ih
      exact ⟨c :: a, by simp [List.dropWhile_cons, h, ha]⟩
    · exact ⟨[], by simp [List.dropWhile_cons, h]⟩

lemma head?_dropWhile_false {p : Char → Bool} {l : List Char} {c : Char}
    (h : (l.dropWhile p).head? = some c) : p c = false := by
  have hm := List.head?_dropWhile_not p l
  rw [h] at hm
  exact hm

lemma dropWhile_reverse_dropWhile_reverse (p : Char → Bool) (l : List Char) :
    ((((l.dropWhile p).reverse).dropWhile p).reverse).dropWhile p
      = (((l.dropWhile p).reverse).dropWhile p).reverse := by
  obtain ⟨a, ha⟩ := exists_append_dropWhile p (l.dropWhile p).reverse
  cases hv : (((l.dropWhile p).reverse).dropWhile p).reverse with
  | nil => rfl
  | cons c cs =>
    have hrev : (((l.dropWhile p).reverse).dropWhile p).reverse ++ a.reverse
        = l.dropWhile p := by
      rw [← List.reverse_append, ha, List.reverse_reverse]
    have hu : l.dropWhile p = c :: (cs ++ a.reverse) := by
      rw [hv] at hrev
      simpa using hrev.symm
    have hc : p c = false := by
      refine head?_dropWhile_false (show (l.dropWhile p).head? = some c from ?_)
      rw [hu]
      rfl
    simp [List.dropWhile_cons, hc]

lemma stripCharsL_idem (p : Char → Bool) (l : List Char) :
    stripCharsL p (stripCharsL p l) = stripCharsL p l := by
  show ((((stripCharsL p l).dropWhile p).reverse).dropWhile p).reverse = stripCharsL p l
  rw [show (stripCharsL p l).dropWhile p = stripCharsL p l from
    dropWhile_reverse_dropWhile_reverse p l]
  rw [show (stripCharsL p l).reverse = ((l.dropWhile p).reverse).dropWhile p from by
    unfold stripCharsL; rw [List.reverse_reverse]]
  rw [dropWhile_dropWhile]
  rfl

lemma dropWhile_eq_self_of_all (p : Char → Bool) (l : List Char)
    (h : ∀ c ∈ l, p c = false) : l.dropWhile p = l := by
  cases l with
  | nil => rfl
  | cons c rest => simp [List.dropWhile_cons, h c (by simp)]

lemma stripCharsL_eq_self (p : Char → Bool) (l : List Char)
    (h : ∀ c ∈ l, p c = false) : stripCharsL p l = l := by
  unfold stripCharsL
  rw [dropWhile_eq_self_of_all p l h,
    dropWhile_eq_self_of_all p l.reverse (fun c hc => h c (List.mem_reverse.mp hc)),
    List.reverse_reverse]

lemma pyStrip_idem (s : String) : pyStrip (pyStrip s) = pyStrip s := by
  show String.mk (stripCharsL isPyWs (stripCharsL isPyWs s.data))
      = String.mk (stripCharsL isPyWs s.data)
  rw [stripCharsL_idem]

lemma string_mk_eq_empty_iff {l : List Char} : String.mk l = "" ↔ l = [] := by
  constructor
  · intro h
    have := congrArg String.data h
    simpa using this
  · intro h
    rw [h]

lemma mem_readUrlLines {ls : List String} {x : String} (h : x ∈ readUrlLines ls) :
    pyStrip x = x ∧ x ≠ "" := by
  unfold readUrlLines at h
  rw [List.mem_filter] at h
  obtain ⟨hm, hne⟩ := h
  rw [List.mem_map] at hm
  obtain ⟨y, _, rfl⟩ := hm
  exact ⟨pyStrip_idem y, by simpa using hne⟩

lemma readUrlLines_eq_self {m : List String} (h : ∀ x ∈ m, pyStrip x = x ∧ x ≠ "") :
    readUrlLines m = m := by
  unfold readUrlLines
  rw [map_eq_self_of (fun x hx => (h x hx).1)]
  exact filter_eq_self_of (fun x hx => by simpa using (h x hx).2)

lemma splitOnChar_of_not_mem {sep : Char} {a : List Char} (h : sep ∉ a) :
    splitOnChar sep a = [a] := by
  induction a with
  | nil => rfl
  | cons c rest ih =>
    have hc : ¬c = sep := fun e => h (by simp [e])
    have ih2 := ih (fun hm => h (by simp [hm]))
    simp [splitOnChar, hc, ih2]

lemma splitOnChar_append {sep : Char} {a t : List Char} (h : sep ∉ a) :
    splitOnChar sep (a ++ sep :: t) = a :: splitOnChar sep t := by
  induction a with
  | nil => simp [splitOnChar]
  | cons c rest ih =>
    have hc : ¬c = sep := fun e => h (by simp [e])
    have ih2 := ih (fun hm => h (by simp [hm]))
    have ih3 : splitOnChar sep (rest.append (sep :: t)) = rest :: splitOnChar sep t := ih2
    simp [splitOnChar, hc, ih2, ih3]

lemma splitOnChar_joinCommaL {items : List (List Char)} (hne : items ≠ [])
    (h : ∀ i ∈ items, ',' ∉ i) :
    splitOnChar ',' (joinCommaL items) = items := by
  induction items with
  | nil => exact absurd rfl hne
  | cons x xs ih =>
    cases xs with
    | nil => simp [joinCommaL, splitOnChar_of_not_mem (h x (by simp))]
    | cons y ys =>
      rw [show joinCommaL (x :: y :: ys) = x ++ ',' :: joinCommaL (y :: ys) from rfl,
        splitOnChar_append (h x (by simp)),
        ih (by simp) (fun i hi => h i (by simp [hi]))]

lemma mem_joinCommaL {items : List (List Char)} {c : Char} (h : c ∈ joinCommaL items) :
    (∃ i ∈ items, c ∈ i) ∨ c = ',' := by
  induction items with
  | nil => simp [joinCommaL] at h
  | cons x xs ih =>
    cases xs with
    | nil =>
      simp only [joinCommaL] at h
      exact .inl ⟨x, by simp, h⟩
    | cons y ys =>
      rw [show joinCommaL (x :: y :: ys) = x ++ ',' :: joinCommaL (y :: ys) from rfl] at h
      rw [List.mem_append] at h
      rcases h with h | h
      · exact .inl ⟨x, by simp, h⟩
      · rw [List.mem_cons] at h
        rcases h with h | h
        · exact .inr h
        · rcases ih h with ⟨i, hi, hci⟩ | h
          · exact .inl ⟨i, by simp [hi], hci⟩
          · exact .inr h

lemma comma_mem_joinCommaL {x y : List Char} {ys : List (List Char)} :
    ',' ∈ joinCommaL (x :: y :: ys) := by
  rw [show joinCommaL (x :: y :: ys) = x ++ ',' :: joinCommaL (y :: ys) from rfl]
  simp

lemma replaceLAux_slash_length (fuel : Nat) (l : List Char) :
    (replaceLAux ['/'] ['_'] fuel l).length = l.length := by
  induction fuel generalizing l with
  | zero => rfl
  | succ n ih =>
    cases l with
    | nil => rfl
    | cons c rest =>
      by_cases hc : c = '/'
      · subst hc
        simp [replaceLAux, List.isPrefixOf, ih]
      · simp [replaceLAux, List.isPrefixOf, hc, Ne.symm hc, ih]

lemma pyReplace_slash_ne_empty {s : String} (h : s ≠ "") :
    pyReplace s "/" "_" ≠ "" := by
  intro he
  apply h
  have hlen : (replaceLAux "/".data "_".data s.data.length s.data).length = s.data.length := by
    exact replaceLAux_slash_length _ _
  have hnil : replaceLAux "/".data "_".data s.data.length s.data = [] :=
    string_mk_eq_empty_iff.mp he
  rw [hnil] at hlen
  have : s.data = [] := List.eq_nil_of_length_eq_zero hlen.symm
  cases s with
  | mk d =>
    rw [show (String.mk d).data = d from rfl] at this
    rw [this]

/- ### Claim theorems -/

/-- Claim C10: removing a processed URL rewrites the backlog to the list of
its entries not equal to that URL — every occurrence of the URL (duplicates
included) is removed in the one rewrite, and the relative order of all
remaining entries is preserved (the result is exactly the order-preserving
`filter` of the entries read back from the rewritten file). -/
theorem c10_confirmed : ∀ (ls : List String) (url : String),
    readUrlLines (removeProcessedUrl ls url) = (readUrlLines ls).filter (fun u => u ≠ url)
    ∧ url ∉ readUrlLines (removeProcessedUrl ls url) := by
  intro ls url
  have hfix : readUrlLines (removeProcessedUrl ls url) = removeProcessedUrl ls url := by
    apply readUrlLines_eq_self
    intro x hx
    exact mem_readUrlLines (List.mem_of_mem_filter hx)
  constructor
  · rw [hfix]
    rfl
  · rw [hfix]
    intro hmem
    unfold removeProcessedUrl at hmem
    rw [List.mem_filter] at hmem
    have hne : url ≠ url := by simpa using hmem.2
    exact hne rfl

/-- Claim C4: a list-valued enrichment field whose bracketed value is the
literal token "none" (case-insensitive) is recorded as an empty list, never
as a one-element list containing "none"; and the bracketed value
"React, Node.js" is recorded as the comma-separated items in original order
with surrounding whitespace trimmed.  The third conjunct checks this
through the full reply parser on a literal `Technologies: [none]` block. -/
theorem c4_confirmed :
    (∀ raw : String, pyLower (pyStrip raw) = "none" → parseListCapture raw = [])
    ∧ parseListCapture "React, Node.js" = ["React", "Node.js"]
    ∧ (parseGeminiReply "## Metadata\nTechnologies: [none]\n\n## Content\nbody"
        "orig").metadata.technologies = some [] := by
  refine ⟨?_, by decide, by decide⟩
  intro raw h
  have hv : lowerL (stripCharsL isPyWs raw.data) = "none".data := by
    have h2 := congrArg String.data h
    exact h2
  show (parseListCaptureL raw.data).map String.mk = []
  unfold parseListCaptureL
  rw [if_neg]
  · rfl
  · rintro ⟨-, hne⟩
    exact hne hv

/-- Claim C4 witness: the "none" branch at a concrete input. -/
theorem c4_witness : parseListCapture "  NONE  " = [] :=
  c4_confirmed.1 "  NONE  " (by decide)

/-- Claim C6: the fetch issues exactly one GET (component 2 of the result
counts the requests), its result depends only on the first network event,
any non-200 response and any raised exception yield `none` without
propagating, a 200 response yields the body, and the configured retry
count has no effect on the result. -/
theorem c6_confirmed : ∀ (r : Nat) (net : Nat → NetEvent),
    (fetch_url_content r net).2 = 1
    ∧ (∀ (r2 : Nat) (net2 : Nat → NetEvent), net 0 = net2 0 →
        fetch_url_content r net = fetch_url_content r2 net2)
    ∧ (∀ s b, net 0 = .response s b → s ≠ 200 → (fetch_url_content r net).1 = none)
    ∧ (∀ m, net 0 = .exn m → (fetch_url_content r net).1 = none)
    ∧ (∀ b, net 0 = .response 200 b → (fetch_url_content r net).1 = some b) := by
  intro r net
  refine ⟨?_, ?_, ?_, ?_, ?_⟩
  · unfold fetch_url_content
    cases net 0 with
    | response s b => by_cases h : s = 200 <;> simp [h]
    | exn m => rfl
  · intro r2 net2 h
    unfold fetch_url_content
    rw [← h]
  · intro s b h hs
    unfold fetch_url_content
    rw [h]
    simp [hs]
  · intro m h
    unfold fetch_url_content
    rw [h]
  · intro b h
    unfold fetch_url_content
    rw [h]
    simp

/-- Claim C6 witness: a 404 yields no content, and two different retry
counts give the same result. -/
theorem c6_witness :
    (fetch_url_content 3 (fun _ => NetEvent.response 404 "x")).1 = none
    ∧ fetch_url_content 3 (fun _ => NetEvent.response 200 "ok")
      = fetch_url_content 7 (fun _ => NetEvent.response 200 "ok") :=
  ⟨(c6_confirmed 3 _).2.2.1 404 "x" rfl (by decide), (c6_confirmed 3 _).2.1 7 _ rfl⟩

/-- Claim C3 counterexample: the code removes every occurrence of "www."
from the domain, not only a leading one, and strips leading/trailing
slashes from the path before replacing slashes; for the URL with netloc
"blog.www.example.com" and path "/page" the produced filename differs
from the claim's. -/
theorem c3_counterexample :
    create_markdown_filename ⟨"blog.www.example.com", "/page", ""⟩ "20240101_000000"
      ≠ filenameClaimC3 ⟨"blog.www.example.com", "/page", ""⟩ "20240101_000000"
    ∧ create_markdown_filename ⟨"blog.www.example.com", "/page", ""⟩ "20240101_000000"
      = "blog.example.com_page.md"
    ∧ filenameClaimC3 ⟨"blog.www.example.com", "/page", ""⟩ "20240101_000000"
      = "blog.www.example.com__page.md" := by
  refine ⟨by decide, by decide, by decide⟩

/-- Claim C3 (amended): the filename equals the domain with every
occurrence of "www." removed, an underscore, and the first 100 characters
of the path after stripping leading/trailing slashes and replacing the
remaining slashes with underscores, plus ".md"; when the stripped path is
empty the timestamp branch is taken; unsafe characters are then replaced
with underscores. -/
theorem c3_amended : ∀ (u : ParsedUrl) (ts : String),
    create_markdown_filename u ts = filenameAmendedC3 u ts := by
  intro u ts
  unfold create_markdown_filename filenameAmendedC3
  by_cases h : pyReplace (pyStripSlash u.path) "/" "_" ≠ "" <;> simp [h]

/-- Claim C7 counterexample: the URL with netloc "example.com" and the
non-empty path "/" falls into the timestamp branch, so two runs at
different times derive different filenames. -/
theorem c7_counterexample :
    (ParsedUrl.mk "example.com" "/" "").path ≠ ""
    ∧ create_markdown_filename ⟨"example.com", "/", ""⟩ "20240101_000000"
      ≠ create_markdown_filename ⟨"example.com", "/", ""⟩ "20240102_000000" := by
  refine ⟨by decide, by decide⟩

/-- Claim C7 (amended): filename derivation is deterministic for every URL
whose path is non-empty after stripping leading/trailing slashes, and two
URLs with the same domain and path (so differing only in query string)
always collide. -/
theorem c7_amended :
    (∀ (u : ParsedUrl) (ts1 ts2 : String), pyStripSlash u.path ≠ "" →
      create_markdown_filename u ts1 = create_markdown_filename u ts2)
    ∧ (∀ (u1 u2 : ParsedUrl) (ts : String), u1.netloc = u2.netloc → u1.path = u2.path →
      create_markdown_filename u1 ts = create_markdown_filename u2 ts) := by
  constructor
  · intro u ts1 ts2 h
    have h2 : pyReplace (pyStripSlash u.path) "/" "_" ≠ "" := pyReplace_slash_ne_empty h
    unfold create_markdown_filename
    simp [h2]
  · intro u1 u2 ts h1 h2
    obtain ⟨n1, p1, q1⟩ := u1
    obtain ⟨n2, p2, q2⟩ := u2
    simp only at h1 h2
    subst h1
    subst h2
    rfl

/-- Claim C7 witness: determinism at path "/a" and a query-only collision
at a concrete input. -/
theorem c7_witness :
    create_markdown_filename ⟨"example.com", "/a", ""⟩ "t1"
      = create_markdown_filename ⟨"example.com", "/a", ""⟩ "t2"
    ∧ create_markdown_filename ⟨"example.com", "/a", "x=1"⟩ "t"
      = create_markdown_filename ⟨"example.com", "/a", "x=2"⟩ "t" :=
  ⟨c7_amended.1 ⟨"example.com", "/a", ""⟩ "t1" "t2" (by decide),
    c7_amended.2 ⟨"example.com", "/a", "x=1"⟩ ⟨"example.com", "/a", "x=2"⟩ "t" rfl rfl⟩

/-- Claim C5 counterexample: a reply whose `Tags:` bracketed value lists
eleven items is parsed into an eleven-element tags list — the parser never
enforces the ≤ 10 bound the claim states (nor ≤ 8 for key concepts). -/
theorem c5_counterexample :
    ((parseGeminiReply
        "## Metadata\nTags: [a, b, c, d, e, f, g, h, i, j, k]\n\n## Content\nbody"
        "x").metadata.tags).getD []
      = ["a", "b", "c", "d", "e", "f", "g", "h", "i", "j", "k"]
    ∧ ¬(((parseGeminiReply
        "## Metadata\nTags: [a, b, c, d, e, f, g, h, i, j, k]\n\n## Content\nbody"
        "x").metadata.tags).getD []).length ≤ 10 := by
  refine ⟨by decide, by decide⟩

/-- Claim C5 (amended): the parser records the full comma-separated item
list of a bracketed list value without enforcing any length cap: a value
of n non-empty whitespace-free comma-free items parses to exactly those n
items, for every n (the ≤ 10 / ≤ 8 limits are only requested of the
service in the prompt text). -/
theorem c5_amended (items : List (List Char))
    (h2 : 2 ≤ items.length)
    (hne : ∀ i ∈ items, i ≠ [])
    (hch : ∀ i ∈ items, ∀ c ∈ i, isPyWs c = false ∧ c ≠ ',') :
    parseListCaptureL (joinCommaL items) = items := by
  rcases items with _ | ⟨x, _ | ⟨y, ys⟩⟩
  · simp at h2
  · simp at h2
  · have hjoin_ws : ∀ c ∈ joinCommaL (x :: y :: ys), isPyWs c = false := by
      intro c hc
      rcases mem_joinCommaL hc with ⟨i, hi, hci⟩ | hc'
      · exact (hch i hi c hci).1
      · rw [hc']
        decide
    have hstrip : stripCharsL isPyWs (joinCommaL (x :: y :: ys)) = joinCommaL (x :: y :: ys) :=
      stripCharsL_eq_self _ _ hjoin_ws
    have hcomma : ',' ∈ joinCommaL (x :: y :: ys) := comma_mem_joinCommaL
    have hnil : joinCommaL (x :: y :: ys) ≠ [] := List.ne_nil_of_mem hcomma
    have hnone : lowerL (joinCommaL (x :: y :: ys)) ≠ "none".data := by
      intro he
      have h1 : Char.toLower ',' ∈ lowerL (joinCommaL (x :: y :: ys)) :=
        List.mem_map_of_mem Char.toLower hcomma
      rw [he] at h1
      rw [show Char.toLower ',' = ',' from rfl] at h1
      simp at h1
    unfold parseListCaptureL
    rw [hstrip, if_pos ⟨hnil, hnone⟩]
    rw [splitOnChar_joinCommaL (by simp) (fun i hi hc => (hch i hi ',' hc).2 rfl)]
    rw [map_eq_self_of (fun i hi => stripCharsL_eq_self _ _ (fun c hc => (hch i hi c hc).1))]
    exact filter_eq_self_of (fun i hi => by simpa using hne i hi)

/-- Claim C5 witness: eleven clean items round-trip through the list-field
parser unchanged, exceeding the claimed cap of ten. -/
theorem c5_witness :
    parseListCaptureL (joinCommaL
      ["t1".data, "t2".data, "t3".data, "t4".data, "t5".data, "t6".data,
        "t7".data, "t8".data, "t9".data, "tA".data, "tB".data])
      = ["t1".data, "t2".data, "t3".data, "t4".data, "t5".data, "t6".data,
        "t7".data, "t8".data, "t9".data, "tA".data, "tB".data]
    ∧ (["t1".data, "t2".data, "t3".data, "t4".data, "t5".data, "t6".data,
        "t7".data, "t8".data, "t9".data, "tA".data, "tB".data] : List (List Char)).length
      = 11 :=
  ⟨c5_amended _ (by decide) (by decide) (by decide), by decide⟩

/-- Claim C9: an enrichment-reply field whose pattern does not match is
absent from the parsed result (for each of the seven fields), a missing
metadata block leaves all fields absent, a missing content block falls
back to the original converted text, and — the parser being a total
function — no reply text makes parsing fail. -/
theorem c9_confirmed : ∀ (t c : String),
    (searchBlockL metadataMarker metadataStop t.data = none →
      (parseGeminiReply t c).metadata = ExtractedMeta.empty)
    ∧ (∀ mt, searchBlockL metadataMarker metadataStop t.data = some mt →
        (searchFieldL "technologies:".data bracketAfterLabel mt = none →
          (parseGeminiReply t c).metadata.technologies = none)
        ∧ (searchFieldL "programming_languages:".data bracketAfterLabel mt = none →
          (parseGeminiReply t c).metadata.programming_languages = none)
        ∧ (searchFieldL "tags:".data bracketAfterLabel mt = none →
          (parseGeminiReply t c).metadata.tags = none)
        ∧ (searchFieldL "key_concepts:".data bracketAfterLabel mt = none →
          (parseGeminiReply t c).metadata.key_concepts = none)
        ∧ (searchFieldL "code_examples:".data yesNoAfterLabel mt = none →
          (parseGeminiReply t c).metadata.code_examples = none)
        ∧ (searchFieldL "difficulty_level:".data difficultyAfterLabel mt = none →
          (parseGeminiReply t c).metadata.difficulty_level = none)
        ∧ (searchFieldL "summary:".data summaryAfterLabel mt = none →
          (parseGeminiReply t c).metadata.summary = none))
    ∧ (searchTailL contentMarker t.data = none → (parseGeminiReply t c).content = c) := by
  intro t c
  refine ⟨?_, ?_, ?_⟩
  · intro h
    simp [parseGeminiReply, h]
  · intro mt hmt
    refine ⟨?_, ?_, ?_, ?_, ?_, ?_, ?_⟩ <;>
      intro h <;> simp [parseGeminiReply, hmt, parseMetadataText, h]
  · intro h
    simp [parseGeminiReply, h]

/-- Claim C9 witness: a reply with neither block yields the empty field
record and the original text. -/
theorem c9_witness :
    (parseGeminiReply "hello" "orig").metadata = ExtractedMeta.empty
    ∧ (parseGeminiReply "hello" "orig").content = "orig" :=
  ⟨(c9_confirmed "hello" "orig").1 (by decide), (c9_confirmed "hello" "orig").2.2 (by decide)⟩

/-- Claim C8 counterexample: with a meta author tag whose content is empty
and a later element with class "author-box", the code returns that
element's text ("Jane Doe"), not the value of the first matching rule as
the claim's priority order dictates. -/
theorem c8_counterexample :
    extract_author
        [⟨"meta", [("name", "author"), ("content", "")], [], ""⟩,
          ⟨"div", [], ["author-box"], "Jane Doe"⟩]
      = "Jane Doe"
    ∧ claimAuthorC8
        [⟨"meta", [("name", "author"), ("content", "")], [], ""⟩,
          ⟨"div", [], ["author-box"], "Jane Doe"⟩]
      = ""
    ∧ extract_author
        [⟨"meta", [("name", "author"), ("content", "")], [], ""⟩,
          ⟨"div", [], ["author-box"], "Jane Doe"⟩]
      ≠ claimAuthorC8
        [⟨"meta", [("name", "author"), ("content", "")], [], ""⟩,
          ⟨"div", [], ["author-box"], "Jane Doe"⟩] := by
  refine ⟨by decide, by decide, by decide⟩

/-- Claim C8 (amended): the author is the content of the first meta match
(name before property) when that content is non-empty; otherwise the text
of the first class match — or, only when no class match exists anywhere,
the first itemprop match — when that text is non-empty; otherwise
"Unknown".  Extraction is a total function of the parsed document. -/
theorem c8_amended : ∀ doc : List Tag, extract_author doc = amendedAuthorC8 doc := by
  intro doc
  unfold extract_author amendedAuthorC8
  cases h1 : doc.find? (isMetaWithAttr "name" "author") with
  | some t =>
    by_cases hc : getAttrD t "content" "" = ""
    · cases h3 : doc.find? hasAuthorCls with
      | some t2 => by_cases h4 : t2.text = "" <;> simp [hc, h4]
      | none =>
        cases h5 : doc.find? isItempropAuthor with
        | some t3 => by_cases h6 : t3.text = "" <;> simp [hc, h6]
        | none => simp [hc]
    · simp [hc]
  | none =>
    cases h2 : doc.find? (isMetaWithAttr "property" "article:author") with
    | some t =>
      by_cases hc : getAttrD t "content" "" = ""
      · cases h3 : doc.find? hasAuthorCls with
        | some t2 => by_cases h4 : t2.text = "" <;> simp [hc, h4]
        | none =>
          cases h5 : doc.find? isItempropAuthor with
          | some t3 => by_cases h6 : t3.text = "" <;> simp [hc, h6]
          | none => simp [hc]
      · simp [hc]
    | none =>
      cases h3 : doc.find? hasAuthorCls with
      | some t2 => by_cases h4 : t2.text = "" <;> simp [h4]
      | none =>
        cases h5 : doc.find? isItempropAuthor with
        | some t3 => by_cases h6 : t3.text = "" <;> simp [h6]
        | none => simp

/- Concrete environments exercising the error classifier.  In
`envNoGemini` the enrichment call on "u1" raises with a message that
does not contain "gemini" (as e.g. a deadline or quota error from the
API client can); in `envOtherGemini` a non-enrichment library call on
"u1" raises with a message that happens to contain "gemini" (e.g. an
OS error naming an output file derived from a gemini.google.com URL). -/
def envNoGemini : Env where
  outcome := fun u => if u = "u1" then .geminiError "quota exceeded" else .success
  filename := fun u => u ++ ".md"

def envOtherGemini : Env where
  outcome := fun u =>
    if u = "u1" then .convertError "bad write: gemini.google.com_x.md" else .success
  filename := fun u => u ++ ".md"

/-- Claim C1 counterexample: an enrichment-service exception whose message
lacks the substring "gemini" is swallowed by the per-URL handler (returned
as `False`, no re-raise) and the run continues to the next URL; conversely
a non-enrichment exception whose message contains "gemini" aborts the
whole run.  So enrichment failures do not always abort, and enrichment is
not the only class that aborts. -/
theorem c1_counterexample :
    processUrl envNoGemini "u1" ⟨["u1", "u2"], [], []⟩
      = .ok (false, ⟨["u1", "u2"], [], []⟩)
    ∧ (run envNoGemini ⟨["u1", "u2"], [], []⟩).docs = ["u2.md"]
    ∧ run envOtherGemini ⟨["u1", "u2"], [], []⟩ = ⟨["u1", "u2"], [], []⟩ := by
  refine ⟨rfl, by decide, by decide⟩

/-- Claim C1 (amended): an exception raised during per-URL processing —
whether from the enrichment call or from any other step — propagates out
of the per-URL handler and aborts the run loop exactly when its string
representation contains "gemini" case-insensitively; otherwise it is
logged and the URL is treated as a per-URL failure. -/
theorem c1_amended (env : Env) (url : String) (st : FsState) (msg : String)
    (h : env.outcome url = .geminiError msg ∨ env.outcome url = .convertError msg) :
    (hasGeminiSubstr msg = true →
      processUrl env url st = .error msg
      ∧ ∀ rest, runLoopAux env (url :: rest) st = st)
    ∧ (hasGeminiSubstr msg = false → processUrl env url st = .ok (false, st)) := by
  have hp : processUrl env url st =
      (if hasGeminiSubstr msg then .error msg else .ok (false, st)) := by
    rcases h with h | h <;> simp [processUrl, h]
  constructor
  · intro hg
    rw [hp]
    rw [if_pos hg]
    refine ⟨rfl, fun rest => ?_⟩
    simp [runLoopAux, hp, hg]
  · intro hg
    rw [hp]
    rw [if_neg (by simp [hg])]

/-- Claim C1 witness: the amended classification at concrete inputs. -/
theorem c1_witness :
    processUrl envOtherGemini "u1" ⟨["u1", "u2"], [], []⟩
      = .error "bad write: gemini.google.com_x.md"
    ∧ processUrl envNoGemini "u1" ⟨["u1", "u2"], [], []⟩
      = .ok (false, ⟨["u1", "u2"], [], []⟩) :=
  ⟨((c1_amended envOtherGemini "u1" ⟨["u1", "u2"], [], []⟩
      "bad write: gemini.google.com_x.md" (.inr (by decide))).1 (by decide)).1,
    (c1_amended envNoGemini "u1" ⟨["u1", "u2"], [], []⟩
      "quota exceeded" (.inl (by decide))).2 (by decide)⟩

/- Invariant of the run loop: processing a prefix of distinct URLs that
all succeed, followed by an enrichment failure whose message contains
"gemini", writes exactly the prefix's documents and ledger records and
leaves the failing URL and everything after it in the backlog. -/
lemma runLoopAux_prefix_spec (env : Env) :
    ∀ (pre : List String) (u : String) (post : List String) (msg : String) (st : FsState),
      (∀ x ∈ pre, env.outcome x = .success) →
      env.outcome u = .geminiError msg →
      hasGeminiSubstr msg = true →
      readUrlLines st.backlog = pre ++ u :: post →
      (pre ++ u :: post).Nodup →
      (pre.map env.filename).Nodup →
      (∀ x ∈ pre, env.filename x ∉ st.docs) →
      (runLoopAux env (pre ++ u :: post) st).docs = st.docs ++ pre.map env.filename
      ∧ (runLoopAux env (pre ++ u :: post) st).ledger
        = st.ledger ++ pre.map (fun x => (x, env.filename x))
      ∧ readUrlLines (runLoopAux env (pre ++ u :: post) st).backlog = u :: post := by
  intro pre
  induction pre with
  | nil =>
    intro u post msg st hpre hu hg hb hnd hfn hfresh
    have hp : processUrl env u st = .error msg := by
      simp [processUrl, hu, hg]
    have hrl : runLoopAux env ([] ++ u :: post) st = st := by
      simp [runLoopAux, hp, hg]
    rw [hrl]
    simp [hb]
  | cons p pre2 ih =>
    intro u post msg st hpre hu hg hb hnd hfn hfresh
    have hps : env.outcome p = .success := hpre p (by simp)
    have hfp : env.filename p ∉ st.docs := hfresh p (by simp)
    have hstep : runLoopAux env ((p :: pre2) ++ u :: post) st
        = runLoopAux env (pre2 ++ u :: post)
            { backlog := removeProcessedUrl st.backlog p
              docs := writeDoc st.docs (env.filename p)
              ledger := st.ledger ++ [(p, env.filename p)] } := by
      simp [runLoopAux, processUrl, hps]
    have hnd' : (p :: (pre2 ++ u :: post)).Nodup := hnd
    have hpmem : p ∉ pre2 ++ u :: post := (List.nodup_cons.mp hnd').1
    have hnd2 : (pre2 ++ u :: post).Nodup := (List.nodup_cons.mp hnd').2
    have hbl2 : removeProcessedUrl st.backlog p = pre2 ++ u :: post := by
      unfold removeProcessedUrl
      rw [hb]
      rw [show ((p :: pre2) ++ u :: post) = p :: (pre2 ++ u :: post) from rfl]
      rw [List.filter_cons]
      rw [if_neg (by simp)]
      exact filter_eq_self_of (fun x hx => by
        simp only [ne_eq, decide_eq_true_eq]
        rintro rfl
        exact hpmem hx)
    have hclean : ∀ x ∈ pre2 ++ u :: post, pyStrip x = x ∧ x ≠ "" := by
      intro x hx
      have hx2 : x ∈ readUrlLines st.backlog := by
        rw [hb]
        exact List.mem_cons_of_mem p hx
      exact mem_readUrlLines hx2
    have hrb2 : readUrlLines (removeProcessedUrl st.backlog p) = pre2 ++ u :: post := by
      rw [hbl2]
      exact readUrlLines_eq_self hclean
    have hdocs2 : writeDoc st.docs (env.filename p) = st.docs ++ [env.filename p] := by
      unfold writeDoc
      rw [if_neg hfp]
    have hfn' := hfn
    rw [List.map_cons] at hfn'
    have hfn2 : (pre2.map env.filename).Nodup := (List.nodup_cons.mp hfn').2
    have hfp_notin : env.filename p ∉ pre2.map env.filename := (List.nodup_cons.mp hfn').1
    have hpre2 : ∀ x ∈ pre2, env.outcome x = .success := fun x hx => hpre x (by simp [hx])
    have hfresh2 : ∀ x ∈ pre2,
        env.filename x ∉ writeDoc st.docs (env.filename p) := by
      intro x hx
      rw [hdocs2, List.mem_append]
      rintro (hmem | hmem)
      · exact hfresh x (by simp [hx]) hmem
      · simp only [List.mem_singleton] at hmem
        exact hfp_notin (hmem ▸ List.mem_map_of_mem env.filename hx)
    obtain ⟨ihd, ihl, ihb⟩ := ih u post msg
      { backlog := removeProcessedUrl st.backlog p
        docs := writeDoc st.docs (env.filename p)
        ledger := st.ledger ++ [(p, env.filename p)] }
      hpre2 hu hg hrb2 hnd2 hfn2 hfresh2
    refine ⟨?_, ?_, ?_⟩
    · rw [hstep, ihd]
      show writeDoc st.docs (env.filename p) ++ _ = _
      rw [hdocs2, List.map_cons, List.append_assoc]
      rfl
    · rw [hstep, ihl]
      show st.ledger ++ [(p, env.filename p)] ++ _ = _
      rw [List.map_cons, List.append_assoc]
      rfl
    · rw [hstep]
      exact ihb

/-- Claim C2 (amended): for a backlog of pairwise-distinct URLs whose
derived filenames are pairwise distinct, if the first k−1 URLs (the list
`pre`) process successfully and the enrichment call on the k-th URL `u`
fails with an exception whose message contains "gemini"
(case-insensitively), then after the run exactly k−1 output documents and
k−1 ledger records exist and the backlog file contains exactly `u` and
all URLs after it, in their original order.  Without the "gemini"
condition the loop continues past the failure, and with duplicate URLs or
colliding filenames the counts differ — see the counterexample. -/
theorem c2_amended (env : Env) (st : FsState) (pre : List String) (u : String)
    (post : List String) (msg : String)
    (hdocs : st.docs = []) (hledger : st.ledger = [])
    (hb : readUrlLines st.backlog = pre ++ u :: post)
    (hnd : (pre ++ u :: post).Nodup)
    (hfn : ((pre ++ u :: post).map env.filename).Nodup)
    (hpre : ∀ x ∈ pre, env.outcome x = .success)
    (hu : env.outcome u = .geminiError msg)
    (hg : hasGeminiSubstr msg = true) :
    (run env st).docs.length = pre.length
    ∧ (run env st).ledger.length = pre.length
    ∧ readUrlLines (run env st).backlog = u :: post := by
  have hrun : run env st = runLoopAux env (pre ++ u :: post) st := by
    unfold run
    rw [hb]
    rw [if_neg (by simp)]
  have hfn1 : (pre.map env.filename).Nodup := by
    rw [List.map_append] at hfn
    exact hfn.of_append_left
  have hfresh : ∀ x ∈ pre, env.filename x ∉ st.docs := by
    intro x hx
    rw [hdocs]
    simp
  obtain ⟨hd, hl, hbk⟩ :=
    runLoopAux_prefix_spec env pre u post msg st hpre hu hg hb hnd hfn1 hfresh
  rw [hrun]
  refine ⟨?_, ?_, hbk⟩
  · rw [hd, hdocs]
    simp
  · rw [hl, hledger]
    simp

/- An environment in which URL "b" fails the enrichment call with a
message containing "gemini". -/
def envC2W : Env where
  outcome := fun u => if u = "b" then .geminiError "Gemini down" else .success
  filename := fun u => u ++ ".md"

/-- Claim C2 witness: backlog ["a","b","c"] with the enrichment call
failing on "b" (k = 2): one document, one ledger record, backlog
["b","c"]. -/
theorem c2_witness :
    (run envC2W ⟨["a", "b", "c"], [], []⟩).docs.length = 1
    ∧ (run envC2W ⟨["a", "b", "c"], [], []⟩).ledger.length = 1
    ∧ readUrlLines (run envC2W ⟨["a", "b", "c"], [], []⟩).backlog = ["b", "c"] :=
  c2_amended envC2W ⟨["a", "b", "c"], [], []⟩ ["a"] "b" ["c"] "Gemini down"
    rfl rfl (by decide) (by decide) (by decide) (by decide) (by decide) (by decide)

/-- Claim C2 counterexample: backlog ["u1","u2"] with the enrichment call
failing on the first URL (k = 1) with a message not containing "gemini":
the claim demands 0 documents and a backlog of ["u1","u2"], but the loop
continues, processes "u2", and leaves 1 document and backlog ["u1"]. -/
theorem c2_counterexample :
    (run envNoGemini ⟨["u1", "u2"], [], []⟩).docs.length = 1
    ∧ readUrlLines (run envNoGemini ⟨["u1", "u2"], [], []⟩).backlog = ["u1"] := by
  refine ⟨by decide, by decide⟩

end UrlProc
